import Mathlib

/-!
Verification of the archive-extraction script (`unzip_1.py`) of the
xbox-tools repository: a shallow embedding of its classification,
collision-avoidance and walk logic, together with theorems about the
properties its specification states.

Paths and filenames are modelled as lists of characters (`Str`); the
filesystem is an association list from paths to file contents (`Fs`);
the behaviour of the external archive backends (zipfile, rarfile, the
system `unrar` binary, py7zr/patool) is a parameter of the model
(`Env`), since those libraries are external collaborators of the
script.  The script's own logic — extension classification, first-RAR-
volume detection, `unique_path` collision avoidance, the member loops
of `extract_zip`/`extract_rar`, the `unrar x -o+` fallback, the
`--delete` handling and the outer walk loop with its per-archive
`try`/`except` — is translated directly from the source.
-/

/-- A string, modelled as its list of characters. -/
abbrev Str := List Char

/-- Embed a Lean string literal as a `Str`. -/
def str (s : String) : Str := s.data

/-- Models Python `s.lower()` (ASCII case folding suffices for the
extension patterns the script matches). -/
def toLowerStr (s : Str) : Str := s.map Char.toLower

/-- Models Python `s.endswith(suffix)`. -/
def endsWithStr (suffix s : Str) : Bool := List.isSuffixOf suffix s

/-- Models `os.path.join(d, f)` for a directory `d` with no trailing
separator and a relative member name `f`, as produced by `os.walk`. -/
def joinPath (d f : Str) : Str := d ++ '/' :: f

/-- Models `re.search(r"\.part0*1\.rar$", f)`: `f` ends with `".part"`,
then zero or more `'0'`, then `"1.rar"`.  Checked on the reversed
character list (the regex is end-anchored, so it is a suffix test; the
`0*` is effectively greedy because the following literal starts with a
non-zero character). -/
def matchesPart01 (f : Str) : Bool :=
  let r := f.reverse
  List.isPrefixOf (str "1.rar").reverse r &&
    List.isPrefixOf (str ".part").reverse ((r.drop 5).dropWhile (fun c => c == '0'))

/-- Models `re.search(r"\.part\d+\.rar$", f)`: `f` ends with `".part"`,
one or more digits, then `".rar"`. -/
def matchesPartN (f : Str) : Bool :=
  let r := f.reverse
  List.isPrefixOf (str ".rar").reverse r &&
    !((r.drop 4).takeWhile Char.isDigit).isEmpty &&
    List.isPrefixOf (str ".part").reverse ((r.drop 4).dropWhile Char.isDigit)

/-- Models `re.search(r"\.r\d{2}$", f)`: `f` ends with `'.'`, `'r'` and
two digits. -/
def matchesRdd (f : Str) : Bool :=
  match f.reverse with
  | d1 :: d0 :: 'r' :: '.' :: _ => d1.isDigit && d0.isDigit
  | _ => false

/-- Models `re.search(r"\.(7z|tar|gz|bz2|xz)$", low)` of the walker's
third branch (an end-anchored alternation of literal suffixes). -/
def matches7zEtc (low : Str) : Bool :=
  endsWithStr (str ".7z") low || endsWithStr (str ".tar") low ||
    endsWithStr (str ".gz") low || endsWithStr (str ".bz2") low ||
    endsWithStr (str ".xz") low

/-- Models `re.sub(r"\.part0*1\.rar$", "", f)` on an `f` for which
`matchesPart01 f` holds: strip `"1.rar"`, the run of `'0'`s, and
`".part"` from the end. -/
def stripPart01 (f : Str) : Str :=
  ((((f.reverse).drop 5).dropWhile (fun c => c == '0')).drop 5).reverse

/-- Models `is_first_rar_volume(filename, dirpath)` (lines 37–50).
`ex` is the `os.path.exists` oracle.  The first component is the
returned boolean; the second is the path of the "missing next part"
warning when one is printed (`none` when nothing is printed).  Note
the filesystem oracle is consulted only for the warning, never for the
returned boolean. -/
def is_first_rar_volume (ex : Str → Bool) (filename dirpath : Str) : Bool × Option Str :=
  let f := toLowerStr filename
  if matchesPart01 f then
    let base := stripPart01 f
    let nextPart := joinPath dirpath (base ++ str ".part2.rar")
    (true, if ex nextPart then none else some nextPart)
  else if matchesPartN f then (false, none)
  else if matchesRdd f then (false, none)
  else (endsWithStr (str ".rar") f, none)

/-- Models `os.path.splitext(filename)` for a `filename` containing no
path separator (the script only applies it to base names): split at
the last dot, except that a name whose part before that dot consists
entirely of dots (for example `".bashrc"`, `".."`) is not split. -/
def splitext (f : Str) : Str × Str :=
  match (f.reverse).span (fun c => c != '.') with
  | (_, []) => (f, [])
  | (revExt, _ :: revBase) =>
    if revBase.all (fun c => c == '.') then (f, [])
    else (revBase.reverse, '.' :: revExt.reverse)

/-- The decimal digit characters. -/
def digitChar : Nat → Char
  | 0 => '0'
  | 1 => '1'
  | 2 => '2'
  | 3 => '3'
  | 4 => '4'
  | 5 => '5'
  | 6 => '6'
  | 7 => '7'
  | 8 => '8'
  | _ => '9'

/-- Fuel-driven decimal rendering (most significant digit first),
accumulating digits on the right.  The fuel passed by `natRepr` always
suffices. -/
def natReprAux : Nat → Nat → Str → Str
  | 0, _, acc => acc
  | fuel + 1, n, acc =>
    if n < 10 then digitChar n :: acc
    else natReprAux fuel (n / 10) (digitChar (n % 10) :: acc)

/-- Decimal rendering of a natural number, modelling Python's `str(i)`
inside the f-string `f"{base}_{i}{ext}"`. -/
def natRepr (n : Nat) : Str := natReprAux (n + 1) n []

/-- The value of a decimal digit character (inverse of `digitChar`),
used to prove the decimal rendering injective. -/
def undigit : Char → Nat
  | '1' => 1
  | '2' => 2
  | '3' => 3
  | '4' => 4
  | '5' => 5
  | '6' => 6
  | '7' => 7
  | '8' => 8
  | '9' => 9
  | _ => 0

/-- Read a digit string back into a number (a proof device for the
injectivity of `natRepr`). -/
def parseFoldl (init : Nat) (l : Str) : Nat :=
  l.foldl (fun a c => a * 10 + undigit c) init

/-- Models `os.path.exists` against the model filesystem's path list. -/
def pathExistsIn (existing : List Str) (p : Str) : Bool := existing.contains p

/-- The candidate name `f"{base}_{i}{ext}"` tried by `unique_path`. -/
def suffixedName (base ext : Str) (i : Nat) : Str := base ++ '_' :: (natRepr i ++ ext)

/-- The `while True` loop of `unique_path` (lines 59–64), made total by
fuel; `unique_path` passes one more unit of fuel than there are
existing paths, which always suffices to find a free candidate. -/
def uniqueFrom (existing : List Str) (dirpath base ext : Str) : Nat → Nat → Str
  | i, 0 => joinPath dirpath (suffixedName base ext i)
  | i, fuel + 1 =>
    let path := joinPath dirpath (suffixedName base ext i)
    if pathExistsIn existing path then uniqueFrom existing dirpath base ext (i + 1) fuel
    else path

/-- Models `unique_path(dirpath, filename)` (lines 53–64) against the
finite set `existing` of paths that exist. -/
def unique_path (existing : List Str) (dirpath filename : Str) : Str :=
  let path := joinPath dirpath filename
  if pathExistsIn existing path then
    let be := splitext filename
    uniqueFrom existing dirpath be.1 be.2 1 (existing.length + 1)
  else path

/-- Models `os.path.basename(p)`: the part after the last `'/'`. -/
def basenameStr (p : Str) : Str := ((p.reverse).takeWhile (fun c => c != '/')).reverse

/-- An archive member as surfaced by the zipfile/rarfile backends:
its stored path, its is-directory flag, and its content (abstracted to
a number). -/
structure Member where
  filename : Str
  isDir : Bool
  data : Nat
deriving DecidableEq

/-- Models `os.path.basename(info.filename) or "file"` (lines 86/110). -/
def outName (m : Member) : Str :=
  let b := basenameStr m.filename
  if b.isEmpty then str "file" else b

/-- The model filesystem: an association list from paths to contents. -/
abbrev Fs := List (Str × Nat)

/-- The paths that exist in the model filesystem. -/
def fsPaths (fs : Fs) : List Str := fs.map Prod.fst

/-- A write to a fresh path (`open(out_path, "wb")` on a path
`unique_path` guarantees not to exist). -/
def addFile (fs : Fs) (p : Str) (d : Nat) : Fs := (p, d) :: fs

/-- Models `os.remove(p)`. -/
def removePath (fs : Fs) (p : Str) : Fs := fs.filter (fun e => e.1 != p)

/-- An overwriting write, as performed by `unrar x -o+`: any previous
content at `p` is replaced. -/
def setPath (fs : Fs) (p : Str) (d : Nat) : Fs := (p, d) :: removePath fs p

/-- One iteration of the member loop shared verbatim by `extract_zip`
(lines 83–91) and the rarfile path of `extract_rar` (lines 107–115):
skip directory entries, flatten the member path to its base name,
resolve a collision-free output path, write.  The accumulator carries
the count `n`, the filesystem, and (as an observation for the
theorems) the list of paths written. -/
def extractStep (dest : Str) (acc : Nat × Fs × List Str) (m : Member) : Nat × Fs × List Str :=
  if m.isDir then acc
  else
    let out := unique_path (fsPaths acc.2.1) dest (outName m)
    (acc.1 + 1, addFile acc.2.1 out m.data, acc.2.2 ++ [out])

/-- The member loop over a whole member list. -/
def extractLoop (fs : Fs) (dest : Str) (ms : List Member) : Nat × Fs × List Str :=
  ms.foldl (extractStep dest) (0, fs, [])

/-- Models `extract_zip(zip_path, dest_dir)` (lines 80–92) given the
member list the zipfile backend reports for the archive. -/
def extract_zip (fs : Fs) (dest : Str) (ms : List Member) : Nat × Fs × List Str :=
  extractLoop fs dest ms

/-- Models the fallback `subprocess.run(["unrar", "x", "-o+", rar_path,
dest_dir])` (line 118): `unrar x` recreates the archived paths under
`dest_dir`, and `-o+` makes every write overwrite an existing file. -/
def unrarExtract (fs : Fs) (dest : Str) (ms : List Member) : Fs :=
  ms.foldl (fun acc m => if m.isDir then acc else setPath acc (joinPath dest m.filename) m.data) fs

/-- The fallback command line built at line 118. -/
def unrarCmd (rarPath destDir : Str) : List Str :=
  [str "unrar", str "x", str "-o+", rarPath, destDir]

/-- The lines the script prints, as far as the claims observe them. -/
inductive Msg
  | zipHdr (p : Str)
  | rarHdr (p : Str)
  | otherHdr (p : Str)
  | extractedCount (n : Nat)
  | deletedArchive (p : Str)
  | integrityWarn (p : Str)
  | fallbackWarn (p : Str)
  | missingNextPart (p : Str)
  | errorLine (p : Str)
  | summary (archives files errors : Nat)
deriving DecidableEq

/-- Behaviour of `zipfile.ZipFile` on one archive.  `raises`: opening
the archive raises (no member written).  `partialRaise ms`: the
archive opens but the member loop raises after having written the
members `ms` (an IOError or a corrupt entry mid-loop, lines 83–91) —
those partial writes persist and `extracted` is never assigned.
`members ms`: the member list extracts cleanly. -/
inductive ZipSpec
  | raises
  | partialRaise (ms : List Member)
  | members (ms : List Member)
deriving DecidableEq

/-- Behaviour of the RAR backends on one archive.  `opens testOk ms`:
`rarfile.RarFile` succeeds, `rf.testrar()` succeeds iff `testOk`, and
the member loop runs over `ms`.  `openFails fb`: the rarfile `try`
block raises at open, before any member is written, and the script
falls back to the system `unrar`.  `failsAfter pre fb`: the member
loop raises after having written the members `pre` — the partial
writes persist, `n` holds their count, and the fallback runs; on a
fallback that completes, `extract_rar` returns that partial `n`.  In
both failure cases `fb = none` means the `unrar` binary itself is
missing (the `subprocess.run` call raises), `fb = some ms` means
`unrar` ran (`check=False` ignores its exit status) and wrote the
members `ms` — `some []` covers an `unrar` run that failed and
extracted nothing. -/
inductive RarSpec
  | openFails (fb : Option (List Member))
  | failsAfter (pre : List Member) (fb : Option (List Member))
  | opens (testOk : Bool) (ms : List Member)
deriving DecidableEq

/-- Behaviour of `extract_any` (py7zr/patool) on one archive. -/
inductive OtherSpec
  | raises
  | extracts
deriving DecidableEq

/-- The run's parameters and the behaviour of the external backends:
whether `import rarfile` succeeded, the `--delete` flag, and the
per-path backend behaviours. -/
structure Env where
  rarfileAvailable : Bool
  delete : Bool
  zipSpec : Str → ZipSpec
  rarSpec : Str → RarSpec
  otherSpec : Str → OtherSpec

/-- The observable state of a run: the filesystem, the three counters
of `main`, the printed log, and (as an observation for the theorems)
the sequence of files the walk loop has iterated over. -/
structure St where
  fs : Fs
  totalArchives : Nat
  totalFiles : Nat
  errors : Nat
  log : List Msg
  visited : List Str
deriving DecidableEq

/-- The warning log lines a call of `is_first_rar_volume` prints. -/
def warnLines : Option Str → List Msg
  | some p => [Msg.missingNextPart p]
  | none => []

/-- The body of the `try` block of `main`'s inner loop (lines 153–183),
one file per call.  A raised exception is modelled as `Except.error`
carrying the state at the raise point (side effects already performed
persist, as they do in Python) and the path reported in the `ERROR`
line.  The branch structure mirrors the `if`/`elif` chain: `.zip`
first; then `.rar`/`.rNN` guarded by `rarfile is not None`, with the
first-volume check and `continue`; then the `7z|tar|gz|bz2|xz`
pattern; anything else is ignored.  A ZIP member loop that raises
mid-way leaves its partial writes in place and neither prints a count
nor adds to `total_files` (the `extracted =` assignment never
happens).  Inside the RAR branch, `extract_rar` (lines 95–119) is
inlined: integrity-test failure only prints a warning; a rarfile
failure — at open (`n = 0`) or after partial member writes (`n` = the
partial count, the writes persisting) — prints a warning and runs the
overwriting `unrar` fallback, whose result is swallowed; the partial
`n` is what `extract_rar` then returns, prints and adds. -/
def tryProcess (env : Env) (st : St) (dirpath fname : Str) : Except (St × Str) St :=
  let low := toLowerStr fname
  let full := joinPath dirpath fname
  if endsWithStr (str ".zip") low then
    let st1 := { st with
      totalArchives := st.totalArchives + 1
      log := st.log ++ [Msg.zipHdr full] }
    match env.zipSpec full with
    | .raises => .error (st1, full)
    | .partialRaise ms =>
      let r := extract_zip st1.fs dirpath ms
      .error ({ st1 with fs := r.2.1 }, full)
    | .members ms =>
      let r := extract_zip st1.fs dirpath ms
      let st2 := { st1 with
        fs := r.2.1
        totalFiles := st1.totalFiles + r.1
        log := st1.log ++ [Msg.extractedCount r.1] }
      if env.delete then
        .ok { st2 with
          fs := removePath st2.fs full
          log := st2.log ++ [Msg.deletedArchive full] }
      else .ok st2
  else if (endsWithStr (str ".rar") low || matchesRdd low) && env.rarfileAvailable then
    let fw := is_first_rar_volume (pathExistsIn (fsPaths st.fs)) fname dirpath
    let st1 := { st with log := st.log ++ warnLines fw.2 }
    if !fw.1 then .ok st1
    else
      let st2 := { st1 with
        totalArchives := st1.totalArchives + 1
        log := st1.log ++ [Msg.rarHdr full] }
      match env.rarSpec full with
      | .opens testOk ms =>
        let st3 := if testOk then st2 else { st2 with log := st2.log ++ [Msg.integrityWarn full] }
        let r := extractLoop st3.fs dirpath ms
        let st4 := { st3 with
          fs := r.2.1
          totalFiles := st3.totalFiles + r.1
          log := st3.log ++ [Msg.extractedCount r.1] }
        if env.delete then
          .ok { st4 with
            fs := removePath st4.fs full
            log := st4.log ++ [Msg.deletedArchive full] }
        else .ok st4
      | .openFails fb =>
        let st3 := { st2 with log := st2.log ++ [Msg.fallbackWarn full] }
        match fb with
        | none => .error (st3, full)
        | some ms =>
          let st4 := { st3 with
            fs := unrarExtract st3.fs dirpath ms
            log := st3.log ++ [Msg.extractedCount 0] }
          if env.delete then
            .ok { st4 with
              fs := removePath st4.fs full
              log := st4.log ++ [Msg.deletedArchive full] }
          else .ok st4
      | .failsAfter pre fb =>
        let r := extractLoop st2.fs dirpath pre
        let st3 := { st2 with
          fs := r.2.1
          log := st2.log ++ [Msg.fallbackWarn full] }
        match fb with
        | none => .error (st3, full)
        | some ms =>
          let st4 := { st3 with
            fs := unrarExtract st3.fs dirpath ms
            totalFiles := st3.totalFiles + r.1
            log := st3.log ++ [Msg.extractedCount r.1] }
          if env.delete then
            .ok { st4 with
              fs := removePath st4.fs full
              log := st4.log ++ [Msg.deletedArchive full] }
          else .ok st4
  else if matches7zEtc low then
    let st1 := { st with
      totalArchives := st.totalArchives + 1
      log := st.log ++ [Msg.otherHdr full] }
    match env.otherSpec full with
    | .raises => .error (st1, full)
    | .extracts =>
      let st2 := { st1 with totalFiles := st1.totalFiles + 1 }
      if env.delete then
        .ok { st2 with
          fs := removePath st2.fs full
          log := st2.log ++ [Msg.deletedArchive full] }
      else .ok st2
  else .ok st

/-- Whether the file enters one of the three extraction branches (so an
extraction is actually attempted for it), mirroring the `if`/`elif`
chain and the first-volume `continue`. -/
def enteredArchive (env : Env) (st : St) (dirpath fname : Str) : Bool :=
  let low := toLowerStr fname
  if endsWithStr (str ".zip") low then true
  else if (endsWithStr (str ".rar") low || matchesRdd low) && env.rarfileAvailable then
    (is_first_rar_volume (pathExistsIn (fsPaths st.fs)) fname dirpath).1
  else matches7zEtc low

/-- One iteration of the inner loop: record the visit, run the `try`
block, and on exception catch it, bump the error tally and print the
`ERROR` line (lines 185–187), then continue. -/
def processFile (env : Env) (st : St) (dirpath fname : Str) : St :=
  let stv := { st with visited := st.visited ++ [joinPath dirpath fname] }
  match tryProcess env stv dirpath fname with
  | .ok st1 => st1
  | .error (st1, p) => { st1 with
      errors := st1.errors + 1
      log := st1.log ++ [Msg.errorLine p] }

/-- Python string comparison (`<=`) on code points, as used by
`sorted(files)`. -/
def strLe : Str → Str → Bool
  | [], _ => true
  | _ :: _, [] => false
  | a :: as, b :: bs => if a < b then true else if b < a then false else strLe as bs

/-- `strLe` as a relation, for Mathlib's sorting API. -/
def strLeR (a b : Str) : Prop := strLe a b = true

instance : DecidableRel strLeR := fun a b => inferInstanceAs (Decidable (strLe a b = true))

/-- Models Python's `sorted(files)`: `strLe` is a linear order (total,
transitive, antisymmetric), so every sorted permutation of `files` is
the same list and any sorting algorithm models `sorted` faithfully. -/
def sortStrs (l : List Str) : List Str := List.insertionSort strLeR l

/-- The inner loop of `main` over an already-ordered file list. -/
def processList (env : Env) (dirpath : Str) (st : St) (fnames : List Str) : St :=
  fnames.foldl (fun s f => processFile env s dirpath f) st

/-- The outer loop of `main` (lines 148–149): `walk` is the sequence of
`(dirpath, files)` pairs yielded by `os.walk(root)`; each directory's
files are iterated in `sorted` order. -/
def runWalk (env : Env) (st : St) (walk : List (Str × List Str)) : St :=
  walk.foldl (fun s p => processList env p.1 s (sortStrs p.2)) st

/-- A whole run of `main` starting from the filesystem `fs0`: zeroed
counters, the walk, then the summary line (line 189).  `os.walk` with
its default `onerror=None` swallows the scandir failure on a
nonexistent root and yields no entries, so a run against a nonexistent
root is `runMain env fs0 []`. -/
def runMain (env : Env) (fs0 : Fs) (walk : List (Str × List Str)) : St :=
  let st := runWalk env { fs := fs0, totalArchives := 0, totalFiles := 0, errors := 0,
                          log := [], visited := [] } walk
  { st with log := st.log ++ [Msg.summary st.totalArchives st.totalFiles st.errors] }

/-- Whether a log line is one of the `ERROR:` lines. -/
def isErrorLine : Msg → Bool
  | .errorLine _ => true
  | _ => false

/-- Whether a log line is a `RAR:` header (printed exactly for the
archives selected for RAR extraction). -/
def isRarHdr : Msg → Bool
  | .rarHdr _ => true
  | _ => false

/-- A run configuration whose backends open no archive successfully
except RAR archives, which list no members; used by the concrete
scenarios below where only classification and logging matter. -/
def envPlain : Env :=
  { rarfileAvailable := true, delete := false, zipSpec := fun _ => ZipSpec.raises,
    rarSpec := fun _ => RarSpec.opens true [], otherSpec := fun _ => OtherSpec.raises }

/-- The directory of the spec's first-volume scenario: `a.rar`,
`a.part1.rar`, `a.part2.rar`, `a.r00` side by side. -/
def fsFourRar : Fs :=
  [(str "d/a.rar", 1), (str "d/a.part1.rar", 2), (str "d/a.part2.rar", 3), (str "d/a.r00", 4)]

/-- The walk listing of that directory. -/
def walkFourRar : List (Str × List Str) :=
  [(str "d", [str "a.rar", str "a.part1.rar", str "a.part2.rar", str "a.r00"])]

/-- A run in which every RAR archive fails to open via rarfile and the
`unrar` fallback writes the single top-level member `name.txt` with
content `7` (overwriting, because of `-o+`). -/
def envOverwrite : Env :=
  { rarfileAvailable := true, delete := false, zipSpec := fun _ => ZipSpec.raises,
    rarSpec := fun _ => RarSpec.openFails (some [⟨str "name.txt", false, 7⟩]),
    otherSpec := fun _ => OtherSpec.raises }

/-- A `--delete` run in which every RAR archive fails to open via
rarfile and the `unrar` fallback also fails, extracting nothing
(`check=False` swallows its exit status). -/
def envDeleteFallback : Env :=
  { rarfileAvailable := true, delete := true, zipSpec := fun _ => ZipSpec.raises,
    rarSpec := fun _ => RarSpec.openFails (some []), otherSpec := fun _ => OtherSpec.raises }

/-- A `--delete` run in which every RAR archive's member loop raises
after writing the single member `x/part.txt`, and the `unrar` binary
is missing, so the `subprocess.run` fallback call itself raises. -/
def envPartialFail : Env :=
  { rarfileAvailable := true, delete := true, zipSpec := fun _ => ZipSpec.raises,
    rarSpec := fun _ => RarSpec.failsAfter [⟨str "x/part.txt", false, 4⟩] none,
    otherSpec := fun _ => OtherSpec.raises }

/-- A run in which `d/bad.zip` is corrupt (opening raises) and every
other ZIP is valid with one nested member `x/readme.txt`. -/
def envTwoZips : Env :=
  { rarfileAvailable := true, delete := false,
    zipSpec := fun p =>
      if p == str "d/bad.zip" then ZipSpec.raises
      else ZipSpec.members [⟨str "x/readme.txt", false, 5⟩],
    rarSpec := fun _ => RarSpec.opens true [], otherSpec := fun _ => OtherSpec.raises }

/-- A run with the rarfile module absent (`import rarfile` failed). -/
def envNoRarfile : Env :=
  { rarfileAvailable := false, delete := false, zipSpec := fun _ => ZipSpec.raises,
    rarSpec := fun _ => RarSpec.opens true [], otherSpec := fun _ => OtherSpec.raises }

/-- A run whose RAR archives open via rarfile, with the integrity test
succeeding iff `testOk`, and one nested member `a/b.txt`. -/
def envIntegrity (testOk : Bool) : Env :=
  { rarfileAvailable := true, delete := false, zipSpec := fun _ => ZipSpec.raises,
    rarSpec := fun _ => RarSpec.opens testOk [⟨str "a/b.txt", false, 3⟩],
    otherSpec := fun _ => OtherSpec.raises }

/-- An empty starting state for concrete scenarios. -/
def stEmpty : St :=
  { fs := [], totalArchives := 0, totalFiles := 0, errors := 0, log := [], visited := [] }

/-- A suffix match inverted into an equation on the reversed string. -/
lemma endsWith_rev (a s : Str) (h : endsWithStr a s = true) : ∃ t, s.reverse = a.reverse ++ t := by
  unfold endsWithStr List.isSuffixOf at h
  rw [ List.isPrefixOf_iff_prefix] at h
  obtain ⟨t, ht⟩ := h
  exact ⟨t, ht.symm⟩

/-- A name matching `\.r\d{2}$` ends, reversed, in digit-digit-`r`-dot. -/
lemma matchesRdd_shape (f : Str) (h : matchesRdd f = true) :
    ∃ d1 d0 t, f.reverse = d1 :: d0 :: 'r' :: '.' :: t := by
  unfold matchesRdd at h
  split at h
  next d1 d0 t heq => exact ⟨d1, d0, t, heq⟩
  next => exact absurd h (by simp)

/-- A RAR candidate name (`.rar` suffix or `\.r\d{2}$`) never takes the
walker's `.zip` branch. -/
lemma rarName_not_zip (low : Str)
    (h : (endsWithStr (str ".rar") low || matchesRdd low) = true) :
    endsWithStr (str ".zip") low = false := by
  by_contra hz
  rw [Bool.not_eq_false] at hz
  obtain ⟨u, hu⟩ := endsWith_rev _ _ hz
  rcases Bool.or_eq_true .. |>.mp h with hr | hr
  · obtain ⟨t, ht⟩ := endsWith_rev _ _ hr
    rw [ht] at hu; simp [str] at hu
  · obtain ⟨d1, d0, t, ht⟩ := matchesRdd_shape _ hr
    rw [ht] at hu; simp [str] at hu

/-- A RAR candidate name never matches the walker's
`\.(7z|tar|gz|bz2|xz)$` branch. -/
lemma rarName_not_7zEtc (low : Str)
    (h : (endsWithStr (str ".rar") low || matchesRdd low) = true) :
    matches7zEtc low = false := by
  unfold matches7zEtc
  rcases Bool.or_eq_true .. |>.mp h with hr | hr
  · obtain ⟨t, ht⟩ := endsWith_rev _ _ hr
    have h1 : endsWithStr (str ".7z") low = false := by
      by_contra hx; rw [Bool.not_eq_false] at hx
      obtain ⟨u, hu⟩ := endsWith_rev _ _ hx; rw [ht] at hu; simp [str] at hu
    have h2 : endsWithStr (str ".tar") low = false := by
      by_contra hx; rw [Bool.not_eq_false] at hx
      obtain ⟨u, hu⟩ := endsWith_rev _ _ hx; rw [ht] at hu; simp [str] at hu
    have h3 : endsWithStr (str ".gz") low = false := by
      by_contra hx; rw [Bool.not_eq_false] at hx
      obtain ⟨u, hu⟩ := endsWith_rev _ _ hx; rw [ht] at hu; simp [str] at hu
    have h4 : endsWithStr (str ".bz2") low = false := by
      by_contra hx; rw [Bool.not_eq_false] at hx
      obtain ⟨u, hu⟩ := endsWith_rev _ _ hx; rw [ht] at hu; simp [str] at hu
    have h5 : endsWithStr (str ".xz") low = false := by
      by_contra hx; rw [Bool.not_eq_false] at hx
      obtain ⟨u, hu⟩ := endsWith_rev _ _ hx; rw [ht] at hu; simp [str] at hu
    simp [h1, h2, h3, h4, h5]
  · obtain ⟨d1, d0, t, ht⟩ := matchesRdd_shape _ hr
    have h1 : endsWithStr (str ".7z") low = false := by
      by_contra hx; rw [Bool.not_eq_false] at hx
      obtain ⟨u, hu⟩ := endsWith_rev _ _ hx; rw [ht] at hu; simp [str] at hu
    have h2 : endsWithStr (str ".tar") low = false := by
      by_contra hx; rw [Bool.not_eq_false] at hx
      obtain ⟨u, hu⟩ := endsWith_rev _ _ hx; rw [ht] at hu; simp [str] at hu
    have h3 : endsWithStr (str ".gz") low = false := by
      by_contra hx; rw [Bool.not_eq_false] at hx
      obtain ⟨u, hu⟩ := endsWith_rev _ _ hx; rw [ht] at hu; simp [str] at hu
    have h4 : endsWithStr (str ".bz2") low = false := by
      by_contra hx; rw [Bool.not_eq_false] at hx
      obtain ⟨u, hu⟩ := endsWith_rev _ _ hx; rw [ht] at hu; simp [str] at hu
    have h5 : endsWithStr (str ".xz") low = false := by
      by_contra hx; rw [Bool.not_eq_false] at hx
      obtain ⟨u, hu⟩ := endsWith_rev _ _ hx; rw [ht] at hu; simp [str] at hu
    simp [h1, h2, h3, h4, h5]

/-- C10: for every pair of calls to `is_first_rar_volume` with the same
filename, the returned boolean is identical regardless of the dirpath
argument and of which files exist on the filesystem — the
classification depends only on the filename string, the existence
check influencing only the printed warning. -/
theorem C10_classification_independent_of_filesystem
    (ex1 ex2 : Str → Bool) (f d1 d2 : Str) :
    (is_first_rar_volume ex1 f d1).1 = (is_first_rar_volume ex2 f d2).1 := by
  unfold is_first_rar_volume
  by_cases h1 : matchesPart01 (toLowerStr f) <;> simp [h1]

/-- C2, counterexample: in the directory `{a.rar, a.part1.rar,
a.part2.rar, a.r00}` the selection does NOT pick only `a.part1.rar`:
the bare `a.rar` is classified as a first volume as well (its
classification ignores the part-numbered siblings), so two `RAR:`
headers are printed, refuting the claim that a bare `.rar` is selected
only when no part-numbered siblings exist. -/
theorem C2_only_part1_selected_false :
    (is_first_rar_volume (fun _ => true) (str "a.rar") (str "d")).1 = true ∧
    ((runMain envPlain fsFourRar walkFourRar).log.filter isRarHdr) =
      [Msg.rarHdr (str "d/a.part1.rar"), Msg.rarHdr (str "d/a.rar")] ∧
    ((runMain envPlain fsFourRar walkFourRar).log.filter isRarHdr) ≠
      [Msg.rarHdr (str "d/a.part1.rar")] := by decide

/-- C2, amended: in that directory the classification selects exactly
`a.part1.rar` and `a.rar` (skipping `a.part2.rar` and `a.r00`), and a
bare `.rar` name with no part numbering is always treated as a first
volume, regardless of the dirpath and of which sibling files exist. -/
theorem C2_selection_amended :
    (∀ (ex : Str → Bool) (d : Str), (is_first_rar_volume ex (str "a.rar") d).1 = true) ∧
    ((runMain envPlain fsFourRar walkFourRar).log.filter isRarHdr) =
      [Msg.rarHdr (str "d/a.part1.rar"), Msg.rarHdr (str "d/a.rar")] ∧
    (∀ (ex : Str → Bool) (d : Str), (is_first_rar_volume ex (str "a.part2.rar") d).1 = false) ∧
    (∀ (ex : Str → Bool) (d : Str), (is_first_rar_volume ex (str "a.r00") d).1 = false) :=
  ⟨fun _ _ => rfl, by decide, fun _ _ => rfl, fun _ _ => rfl⟩

/-- C5, counterexample: with the rarfile module absent, a directory
holding `a.rar` produces NO error and no extraction attempt — the
error count stays `0` (the claim says it is incremented), because the
`rarfile is not None` guard makes the file fall through the `elif`
chain unmatched. -/
theorem C5_missing_rarfile_error_count_false :
    (runMain envNoRarfile [(str "d/a.rar", 1)] [(str "d", [str "a.rar"])]).errors = 0 ∧
    (runMain envNoRarfile [(str "d/a.rar", 1)] [(str "d", [str "a.rar"])]).totalArchives = 0 ∧
    (runMain envNoRarfile [(str "d/a.rar", 1)] [(str "d", [str "a.rar"])]).log =
      [Msg.summary 0 0 0] := by decide

/-- C5, amended: when the rarfile module is absent, every RAR candidate
file (`.rar` or `.rNN`) is skipped silently: the walker's state is
unchanged apart from having visited the file — no error is counted, no
extraction is attempted, nothing is logged. -/
theorem C5_missing_rarfile_skips_silently (env : Env) (st : St) (d f : Str)
    (hna : env.rarfileAvailable = false)
    (hrar : (endsWithStr (str ".rar") (toLowerStr f) || matchesRdd (toLowerStr f)) = true) :
    processFile env st d f = { st with visited := st.visited ++ [joinPath d f] } := by
  unfold processFile tryProcess
  simp [rarName_not_zip _ hrar, rarName_not_7zEtc _ hrar, hna]

/-- Witness for C5's amended theorem at `a.rar` in an empty state. -/
theorem C5_missing_rarfile_skips_silently_witness :
    envNoRarfile.rarfileAvailable = false ∧
    (endsWithStr (str ".rar") (toLowerStr (str "a.rar")) ||
      matchesRdd (toLowerStr (str "a.rar"))) = true ∧
    processFile envNoRarfile stEmpty (str "d") (str "a.rar") =
      { stEmpty with visited := stEmpty.visited ++ [joinPath (str "d") (str "a.rar")] } :=
  ⟨rfl, by decide,
    C5_missing_rarfile_skips_silently envNoRarfile stEmpty (str "d") (str "a.rar") rfl (by decide)⟩

/-- C6, counterexample: a run over a nonexistent root (for which
`os.walk` yields no entries) prints NO error line — the log is exactly
the zero summary — refuting the claim that an error is printed and
that root-resolution failure is fatal; the "performs no extraction"
half does hold (the filesystem is untouched). -/
theorem C6_error_printed_false :
    (runMain envPlain [(str "x", 0)] []).log = [Msg.summary 0 0 0] ∧
    ((runMain envPlain [(str "x", 0)] []).log.filter isErrorLine) = [] ∧
    (runMain envPlain [(str "x", 0)] []).fs = [(str "x", 0)] := by decide

/-- C6, amended: running against a nonexistent root performs no
extraction and completes normally — for every configuration and
starting filesystem, the run over the empty walk leaves the filesystem
untouched, keeps all counters at zero, and prints only the all-zero
summary line (no error, no abort). -/
theorem C6_nonexistent_root_run (env : Env) (fs0 : Fs) :
    runMain env fs0 [] =
      { fs := fs0, totalArchives := 0, totalFiles := 0, errors := 0,
        log := [Msg.summary 0 0 0], visited := [] } := rfl

/-- C1: the claim that extraction never overwrites a pre-existing file
is violated by the `unrar` fallback: `d/name.txt` exists with content
`0`; the RAR archive `d/a.rar` fails to open via rarfile, the script
falls back to `unrar x -o+`, and the member `name.txt` overwrites the
pre-existing file (its content becomes `7`).  The `-o+` (overwrite
all) flag is part of the command the script builds, contradicting the
script's own header comment "Never overwrites: adds _1, _2, ... if
needed". -/
theorem C1_fallback_overwrite_eval :
    (runMain envOverwrite [(str "d/name.txt", 0), (str "d/a.rar", 9)]
        [(str "d", [str "a.rar"])]).fs =
      [(str "d/name.txt", 7), (str "d/a.rar", 9)] ∧
    (str "-o+") ∈ unrarCmd (str "d/a.rar") (str "d") := by decide

/-- `os.remove` really removes: the removed path no longer exists. -/
lemma pathExistsIn_removePath (fs : Fs) (p : Str) :
    pathExistsIn (fsPaths (removePath fs p)) p = false := by
  simp [pathExistsIn, fsPaths, removePath, List.elem_eq_mem, List.mem_map, List.mem_filter]

/-- The existence oracle agrees with list membership. -/
lemma pathExistsIn_iff (l : List Str) (p : Str) : pathExistsIn l p = true ↔ p ∈ l := by
  simp [pathExistsIn, List.elem_eq_mem]

/-- The member loop only adds files: a path that exists before a
(possibly partial) extraction still exists afterwards. -/
lemma extractStep_foldl_preserves (dest p : Str) :
    ∀ (ms : List Member) (acc : Nat × Fs × List Str),
      pathExistsIn (fsPaths acc.2.1) p = true →
      pathExistsIn (fsPaths ((ms.foldl (extractStep dest) acc)).2.1) p = true := by
  intro ms
  induction ms with
  | nil => intro acc h; exact h
  | cons m rest ih =>
    intro acc h
    rw [List.foldl_cons]
    apply ih
    unfold extractStep
    simp only []
    split
    · exact h
    · rw [pathExistsIn_iff] at h ⊢
      simp only [addFile, fsPaths, List.map_cons]
      exact List.mem_cons_of_mem _ h

/-- Partial-write preservation at the `extractLoop` interface. -/
lemma extractLoop_preserves (fs : Fs) (dest : Str) (ms : List Member) (p : Str)
    (h : pathExistsIn (fsPaths fs) p = true) :
    pathExistsIn (fsPaths (extractLoop fs dest ms).2.1) p = true :=
  extractStep_foldl_preserves dest p ms (0, fs, []) h

/-- Partial-write preservation at the `extract_zip` interface. -/
lemma extract_zip_preserves (fs : Fs) (dest : Str) (ms : List Member) (p : Str)
    (h : pathExistsIn (fsPaths fs) p = true) :
    pathExistsIn (fsPaths (extract_zip fs dest ms).2.1) p = true :=
  extractStep_foldl_preserves dest p ms (0, fs, []) h

/-- C3, counterexample: with `--delete`, a RAR archive whose rarfile
open fails and whose `unrar` fallback also fails (extracting nothing,
its exit status swallowed by `check=False`) is still deleted: the run
ends with zero files extracted, zero errors, and the source archive
gone — refuting "if extraction fails the source archive file is left
untouched". -/
theorem C3_failed_extraction_still_deleted :
    (runMain envDeleteFallback [(str "d/a.rar", 9)] [(str "d", [str "a.rar"])]).totalFiles = 0 ∧
    (runMain envDeleteFallback [(str "d/a.rar", 9)] [(str "d", [str "a.rar"])]).errors = 0 ∧
    (runMain envDeleteFallback [(str "d/a.rar", 9)] [(str "d", [str "a.rar"])]).fs = [] := by
  decide

/-- C3, amended: with `--delete`, it is per-archive *exceptions*, not
extraction failures, that decide the archive's fate.  For every file
on which the `try` body completes normally with an extraction branch
entered (which includes the RAR fallback paths that swallow `unrar`
failures, whether the rarfile loop had written none or only some of
the members), the source archive no longer exists afterwards; for
every file on which the `try` body raises — at open or mid-loop after
partial member writes — the source archive file itself still exists at
the raise point: members written before the failure remain on disk,
but the archive is never deleted on that path. -/
theorem C3_delete_follows_normal_completion (env : Env) (st : St) (d f : Str)
    (hdel : env.delete = true) :
    (∀ st1, tryProcess env st d f = Except.ok st1 → enteredArchive env st d f = true →
      pathExistsIn (fsPaths st1.fs) (joinPath d f) = false) ∧
    (∀ st1 p, tryProcess env st d f = Except.error (st1, p) →
      pathExistsIn (fsPaths st.fs) (joinPath d f) = true →
      pathExistsIn (fsPaths st1.fs) (joinPath d f) = true) := by
  constructor
  · intro st1 h hE
    unfold enteredArchive at hE
    unfold tryProcess at h
    rw [hdel] at h
    simp only [eq_self_iff_true, if_true] at h
    repeat' split at h
    all_goals (simp at h; try subst h; try simp_all [pathExistsIn_removePath])
  · intro st1 p h hex
    unfold tryProcess at h
    rw [hdel] at h
    simp only [eq_self_iff_true, if_true] at h
    repeat' split at h
    all_goals try simp at h
    all_goals try (obtain ⟨h1, h2⟩ := h; subst h1)
    all_goals try exact hex
    all_goals try exact extractLoop_preserves _ _ _ _ hex

/-- Witness for C3's amended theorem: first the `--delete` fallback
scenario, where the `try` body completes normally and the archive is
deleted; then a mid-loop RAR failure after one partial member write
with the `unrar` binary missing, where the body raises and the archive
still exists at the raise point, beside the partial write. -/
theorem C3_delete_follows_normal_completion_witness :
    envDeleteFallback.delete = true ∧
    tryProcess envDeleteFallback { stEmpty with fs := [(str "d/a.rar", 9)] }
        (str "d") (str "a.rar") =
      Except.ok
        { fs := [], totalArchives := 1, totalFiles := 0, errors := 0,
          log := [Msg.rarHdr (str "d/a.rar"), Msg.fallbackWarn (str "d/a.rar"),
            Msg.extractedCount 0, Msg.deletedArchive (str "d/a.rar")],
          visited := [] } ∧
    enteredArchive envDeleteFallback { stEmpty with fs := [(str "d/a.rar", 9)] }
        (str "d") (str "a.rar") = true ∧
    pathExistsIn (fsPaths ([] : Fs)) (joinPath (str "d") (str "a.rar")) = false ∧
    tryProcess envPartialFail { stEmpty with fs := [(str "d/a.rar", 9)] }
        (str "d") (str "a.rar") =
      Except.error
        ({ fs := [(str "d/part.txt", 4), (str "d/a.rar", 9)], totalArchives := 1,
            totalFiles := 0, errors := 0,
            log := [Msg.rarHdr (str "d/a.rar"), Msg.fallbackWarn (str "d/a.rar")],
            visited := [] }, str "d/a.rar") ∧
    pathExistsIn (fsPaths [(str "d/part.txt", 4), (str "d/a.rar", 9)])
      (joinPath (str "d") (str "a.rar")) = true :=
  ⟨rfl, rfl, by decide,
    (C3_delete_follows_normal_completion envDeleteFallback
        { stEmpty with fs := [(str "d/a.rar", 9)] } (str "d") (str "a.rar") rfl).1
      { fs := [], totalArchives := 1, totalFiles := 0, errors := 0,
        log := [Msg.rarHdr (str "d/a.rar"), Msg.fallbackWarn (str "d/a.rar"),
          Msg.extractedCount 0, Msg.deletedArchive (str "d/a.rar")],
        visited := [] }
      rfl (by decide),
    rfl,
    (C3_delete_follows_normal_completion envPartialFail
        { stEmpty with fs := [(str "d/a.rar", 9)] } (str "d") (str "a.rar") rfl).2
      { fs := [(str "d/part.txt", 4), (str "d/a.rar", 9)], totalArchives := 1,
        totalFiles := 0, errors := 0,
        log := [Msg.rarHdr (str "d/a.rar"), Msg.fallbackWarn (str "d/a.rar")],
        visited := [] }
      (str "d/a.rar") rfl (by decide)⟩

/-- C4: an exception raised while processing one archive is caught at
the walk's outer loop: the error tally is incremented by one, the
`ERROR` line is printed, and the loop goes on to process exactly the
remaining files from that state — the walk never aborts. -/
theorem C4_exception_caught_walk_continues (env : Env) (st : St) (d f : Str)
    (rest : List Str) (st1 : St) (p : Str)
    (herr : tryProcess env { st with visited := st.visited ++ [joinPath d f] } d f =
      Except.error (st1, p)) :
    processList env d st (f :: rest) =
      processList env d
        { st1 with errors := st1.errors + 1, log := st1.log ++ [Msg.errorLine p] } rest := by
  unfold processList
  simp only [List.foldl_cons]
  unfold processFile
  simp only []
  rw [herr]

/-- Witness for C4: a corrupt ZIP followed by a valid ZIP; the corrupt
one raises and is counted as the single error, and the valid one is
still fully extracted and counted. -/
theorem C4_exception_caught_walk_continues_witness :
    tryProcess envTwoZips
        { stEmpty with visited := stEmpty.visited ++ [joinPath (str "d") (str "bad.zip")] }
        (str "d") (str "bad.zip") =
      Except.error
        ({ fs := [], totalArchives := 1, totalFiles := 0, errors := 0,
            log := [Msg.zipHdr (str "d/bad.zip")], visited := [str "d/bad.zip"] },
          str "d/bad.zip") ∧
    processList envTwoZips (str "d") stEmpty [str "bad.zip", str "good.zip"] =
      processList envTwoZips (str "d")
        { fs := [], totalArchives := 1, totalFiles := 0, errors := 1,
          log := [Msg.zipHdr (str "d/bad.zip"), Msg.errorLine (str "d/bad.zip")],
          visited := [str "d/bad.zip"] } [str "good.zip"] ∧
    (processList envTwoZips (str "d") stEmpty [str "bad.zip", str "good.zip"]).errors = 1 ∧
    (processList envTwoZips (str "d") stEmpty [str "bad.zip", str "good.zip"]).totalFiles = 1 ∧
    fsPaths (processList envTwoZips (str "d") stEmpty [str "bad.zip", str "good.zip"]).fs =
      [str "d/readme.txt"] :=
  ⟨rfl,
    C4_exception_caught_walk_continues envTwoZips stEmpty (str "d") (str "bad.zip")
      [str "good.zip"]
      { fs := [], totalArchives := 1, totalFiles := 0, errors := 0,
        log := [Msg.zipHdr (str "d/bad.zip")], visited := [str "d/bad.zip"] }
      (str "d/bad.zip") rfl,
    by decide, by decide, by decide⟩

/-- C8: the integrity-check policy.  First half: a RAR archive whose
`rf.testrar()` fails is reported with a warning and extraction of its
members still proceeds — the call completes normally, with the member
loop's writes and count exactly as for a passing test, plus the
warning line.  Second half: for the other format with a claim-relevant
backend failure (a ZIP whose backend reports corruption by raising),
the failure propagates as a per-archive error: the tally is
incremented and the `ERROR` line printed. -/
theorem C8_integrity_failure_policy :
    (∀ (env : Env) (st : St) (d f : Str) (ms : List Member),
      env.delete = false →
      ((endsWithStr (str ".rar") (toLowerStr f) || matchesRdd (toLowerStr f)) &&
        env.rarfileAvailable) = true →
      (is_first_rar_volume (pathExistsIn (fsPaths st.fs)) f d).1 = true →
      env.rarSpec (joinPath d f) = RarSpec.opens false ms →
      tryProcess env st d f = Except.ok
        { fs := (extractLoop st.fs d ms).2.1,
          totalArchives := st.totalArchives + 1,
          totalFiles := st.totalFiles + (extractLoop st.fs d ms).1,
          errors := st.errors,
          log := st.log ++ warnLines (is_first_rar_volume (pathExistsIn (fsPaths st.fs)) f d).2 ++
            [Msg.rarHdr (joinPath d f)] ++ [Msg.integrityWarn (joinPath d f)] ++
            [Msg.extractedCount (extractLoop st.fs d ms).1],
          visited := st.visited }) ∧
    (∀ (env : Env) (st : St) (d f : Str),
      endsWithStr (str ".zip") (toLowerStr f) = true →
      env.zipSpec (joinPath d f) = ZipSpec.raises →
      (processFile env st d f).errors = st.errors + 1 ∧
      (processFile env st d f).log =
        st.log ++ [Msg.zipHdr (joinPath d f)] ++ [Msg.errorLine (joinPath d f)]) := by
  constructor
  · intro env st d f ms hdel hb hfirst hspec
    have hz : endsWithStr (str ".zip") (toLowerStr f) = false :=
      rarName_not_zip _ (Bool.and_eq_true .. |>.mp hb).1
    unfold tryProcess
    simp [hz, hb, hfirst, hspec, hdel, List.append_assoc]
  · intro env st d f hz hspec
    unfold processFile tryProcess
    simp [hz, hspec]

/-- Witness for C8: a RAR whose integrity test fails still extracts
its nested member (flattened), and a corrupt ZIP bumps the tally. -/
theorem C8_integrity_failure_policy_witness :
    (envIntegrity false).delete = false ∧
    (envIntegrity false).rarSpec (joinPath (str "d") (str "a.rar")) =
      RarSpec.opens false [⟨str "a/b.txt", false, 3⟩] ∧
    tryProcess (envIntegrity false) { stEmpty with fs := [(str "d/a.rar", 1)] }
        (str "d") (str "a.rar") =
      Except.ok
        { fs := [(str "d/b.txt", 3), (str "d/a.rar", 1)], totalArchives := 1, totalFiles := 1,
          errors := 0,
          log := [Msg.rarHdr (str "d/a.rar"), Msg.integrityWarn (str "d/a.rar"),
            Msg.extractedCount 1],
          visited := [] } ∧
    (processFile envPlain stEmpty (str "d") (str "x.zip")).errors = stEmpty.errors + 1 :=
  ⟨rfl, rfl,
    C8_integrity_failure_policy.1 (envIntegrity false)
      { stEmpty with fs := [(str "d/a.rar", 1)] } (str "d") (str "a.rar")
      [⟨str "a/b.txt", false, 3⟩] rfl (by decide) (by decide) rfl,
    (C8_integrity_failure_policy.2 envPlain stEmpty (str "d") (str "x.zip")
      (by decide) rfl).1⟩

/-- Characters of `splitext`'s base part come from the input name. -/
lemma mem_splitext_fst {c : Char} (f : Str) (h : c ∈ (splitext f).1) : c ∈ f := by
  unfold splitext at h
  split at h
  next => exact h
  next revExt x revBase heq =>
    split at h
    · exact h
    · rw [List.span_eq_take_drop] at heq
      rw [Prod.mk.injEq] at heq
      have hsub : (x :: revBase).Sublist f.reverse := heq.2 ▸ List.dropWhile_sublist _
      have : c ∈ revBase := List.mem_reverse.mp (by simpa using h)
      exact List.mem_reverse.mp (hsub.mem (List.mem_cons_of_mem _ this))

/-- Characters of `splitext`'s extension part are the leading dot or
come from the input name. -/
lemma mem_splitext_snd {c : Char} (f : Str) (h : c ∈ (splitext f).2) : c = '.' ∨ c ∈ f := by
  unfold splitext at h
  split at h
  next => simp at h
  next revExt x revBase heq =>
    split at h
    · simp at h
    · rw [List.span_eq_take_drop] at heq
      rw [Prod.mk.injEq] at heq
      rcases List.mem_cons.mp (by simpa using h) with h1 | h1
      · exact Or.inl h1
      · have : c ∈ revExt := List.mem_reverse.mp (by simpa using h1)
        have hsub : revExt.Sublist f.reverse := heq.1 ▸ List.takeWhile_sublist _
        exact Or.inr (List.mem_reverse.mp (hsub.mem this))

/-- `splitext` preserves slash-freeness (base part). -/
lemma splitext_fst_no_slash (f : Str) (hf : ∀ c ∈ f, c ≠ '/') :
    ∀ c ∈ (splitext f).1, c ≠ '/' :=
  fun c hc => hf c (mem_splitext_fst f hc)

/-- `splitext` preserves slash-freeness (extension part). -/
lemma splitext_snd_no_slash (f : Str) (hf : ∀ c ∈ f, c ≠ '/') :
    ∀ c ∈ (splitext f).2, c ≠ '/' := by
  intro c hc
  rcases mem_splitext_snd f hc with h | h
  · subst h; decide
  · exact hf c h

/-- Characters produced by the decimal renderer are digits (or come
from the accumulator). -/
lemma mem_natReprAux (fuel : Nat) : ∀ (n : Nat) (acc : Str) (c : Char),
    c ∈ natReprAux fuel n acc → c ∈ acc ∨ ∃ d, c = digitChar d := by
  induction fuel with
  | zero => intro n acc c h; exact Or.inl h
  | succ fuel ih =>
    intro n acc c h
    unfold natReprAux at h
    split at h
    · rcases List.mem_cons.mp h with h1 | h1
      · exact Or.inr ⟨n, h1⟩
      · exact Or.inl h1
    · rcases ih _ _ _ h with h1 | h1
      · rcases List.mem_cons.mp h1 with h2 | h2
        · exact Or.inr ⟨n % 10, h2⟩
        · exact Or.inl h2
      · exact Or.inr h1

/-- No decimal digit is a path separator. -/
lemma digitChar_ne_slash (d : Nat) : digitChar d ≠ '/' := by
  unfold digitChar
  split <;> decide

/-- A rendered number contains no path separator. -/
lemma natRepr_no_slash (i : Nat) : ∀ c ∈ natRepr i, c ≠ '/' := by
  intro c hc
  rcases mem_natReprAux _ _ _ _ hc with h | ⟨d, h⟩
  · simp at h
  · exact h ▸ digitChar_ne_slash d

/-- The flattened output name (base name of the member path, or
`"file"`) contains no path separator. -/
lemma outName_no_slash (m : Member) : ∀ c ∈ outName m, c ≠ '/' := by
  intro c hc
  unfold outName at hc
  simp only [] at hc
  split at hc
  · simp [str] at hc
    rcases hc with rfl | rfl | rfl | rfl <;> decide
  · unfold basenameStr at hc
    have : c ∈ (m.filename.reverse).takeWhile (fun c => c != '/') := List.mem_reverse.mp hc
    have := List.mem_takeWhile_imp this
    simpa using this

/-- The collision-suffixed candidate names contain no path separator
when base and extension do not. -/
lemma suffixedName_no_slash (base ext : Str) (j : Nat)
    (hb : ∀ c ∈ base, c ≠ '/') (he : ∀ c ∈ ext, c ≠ '/') :
    ∀ c ∈ suffixedName base ext j, c ≠ '/' := by
  intro c hc
  unfold suffixedName at hc
  rcases List.mem_append.mp hc with h | h
  · exact hb c h
  · rcases List.mem_cons.mp h with h1 | h1
    · subst h1; decide
    · rcases List.mem_append.mp h1 with h2 | h2
      · exact natRepr_no_slash j c h2
      · exact he c h2

/-- Every output of the `unique_path` loop is the join of the target
directory with some suffixed candidate name. -/
lemma uniqueFrom_form (existing : List Str) (d base ext : Str) :
    ∀ (fuel i : Nat), ∃ j, uniqueFrom existing d base ext i fuel =
      joinPath d (suffixedName base ext j) := by
  intro fuel
  induction fuel with
  | zero => intro i; exact ⟨i, rfl⟩
  | succ fuel ih =>
    intro i
    unfold uniqueFrom
    simp only []
    split
    · exact ih (i + 1)
    · exact ⟨i, rfl⟩

/-- `unique_path` returns either the plain joined path or a suffixed
variant of it. -/
lemma unique_path_form (existing : List Str) (d f : Str) :
    unique_path existing d f = joinPath d f ∨
    ∃ j, unique_path existing d f =
      joinPath d (suffixedName (splitext f).1 (splitext f).2 j) := by
  unfold unique_path
  simp only []
  split
  · exact Or.inr (uniqueFrom_form existing d (splitext f).1 (splitext f).2 _ 1)
  · exact Or.inl rfl

/-- Every path written by the member loop comes from some non-directory
member of the list, at the target directory joined with either the
member's flattened base name or a collision-suffixed variant of it. -/
lemma extractLoop_written (dest : Str) :
    ∀ (ms : List Member) (acc : Nat × Fs × List Str) (p : Str),
      p ∈ (ms.foldl (extractStep dest) acc).2.2 →
      p ∈ acc.2.2 ∨ ∃ m, m ∈ ms ∧ m.isDir = false ∧
        (p = joinPath dest (outName m) ∨
          ∃ j, p = joinPath dest
            (suffixedName (splitext (outName m)).1 (splitext (outName m)).2 j)) := by
  intro ms
  induction ms with
  | nil => intro acc p h; exact Or.inl h
  | cons m rest ih =>
    intro acc p h
    rw [List.foldl_cons] at h
    rcases ih _ p h with h2 | ⟨m2, hm2, hdir2, hform2⟩
    · unfold extractStep at h2
      split at h2
      next => exact Or.inl h2
      next hdir =>
        rcases List.mem_append.mp h2 with h3 | h3
        · exact Or.inl h3
        · have hp : p = unique_path (fsPaths acc.2.1) dest (outName m) := by simpa using h3
          rcases unique_path_form (fsPaths acc.2.1) dest (outName m) with h4 | ⟨j, h4⟩
          · exact Or.inr ⟨m, List.mem_cons_self .., by simpa using hdir, Or.inl (hp.trans h4)⟩
          · exact Or.inr ⟨m, List.mem_cons_self .., by simpa using hdir,
              Or.inr ⟨j, hp.trans h4⟩⟩
    · exact Or.inr ⟨m2, List.mem_cons_of_mem _ hm2, hdir2, hform2⟩

/-- C7: every path `extract_zip` writes belongs to a non-directory
member and lies directly in the target directory: it is the target
joined with a separator-free name, namely the base name of the member
path (all directory components discarded) or, on collision, that base
name with a numeric suffix before the extension — never a
reconstructed subtree. -/
theorem C7_zip_flattens_members (fs : Fs) (dest : Str) (ms : List Member) (p : Str)
    (hp : p ∈ (extract_zip fs dest ms).2.2) :
    ∃ m, m ∈ ms ∧ m.isDir = false ∧ ∃ nm, p = joinPath dest nm ∧
      (∀ c ∈ nm, c ≠ '/') ∧
      (nm = outName m ∨ ∃ j, nm =
        suffixedName (splitext (outName m)).1 (splitext (outName m)).2 j) := by
  rcases extractLoop_written dest ms (0, fs, []) p hp with h | ⟨m, hm, hdir, hform⟩
  · simp at h
  · refine ⟨m, hm, hdir, ?_⟩
    rcases hform with h | ⟨j, h⟩
    · exact ⟨outName m, h, outName_no_slash m, Or.inl rfl⟩
    · exact ⟨suffixedName (splitext (outName m)).1 (splitext (outName m)).2 j, h,
        suffixedName_no_slash _ _ _
          (splitext_fst_no_slash _ (outName_no_slash m))
          (splitext_snd_no_slash _ (outName_no_slash m)),
        Or.inr ⟨j, rfl⟩⟩

/-- Witness for C7: a member `dir1/dir2/file.bin` extracted into an
empty directory produces exactly `d/file.bin`, flat in the target. -/
theorem C7_zip_flattens_members_witness :
    (str "d/file.bin") ∈
      (extract_zip [] (str "d") [⟨str "dir1/dir2/file.bin", false, 7⟩]).2.2 ∧
    (extract_zip [] (str "d") [⟨str "dir1/dir2/file.bin", false, 7⟩]).2.2 =
      [str "d/file.bin"] ∧
    (∃ m, m ∈ [(⟨str "dir1/dir2/file.bin", false, 7⟩ : Member)] ∧ m.isDir = false ∧
      ∃ nm, (str "d/file.bin") = joinPath (str "d") nm ∧ (∀ c ∈ nm, c ≠ '/') ∧
        (nm = outName m ∨ ∃ j, nm =
          suffixedName (splitext (outName m)).1 (splitext (outName m)).2 j)) :=
  ⟨by decide, by decide,
    C7_zip_flattens_members [] (str "d") [⟨str "dir1/dir2/file.bin", false, 7⟩]
      (str "d/file.bin") (by decide)⟩

/-- Python string comparison is total. -/
lemma strLe_total (a : Str) : ∀ b : Str, strLe a b = true ∨ strLe b a = true := by
  induction a with
  | nil => intro b; exact Or.inl rfl
  | cons x xs ih =>
    intro b
    cases b with
    | nil => exact Or.inr rfl
    | cons y ys =>
      by_cases hxy : x < y
      · left; simp [strLe, hxy]
      · by_cases hyx : y < x
        · right; simp [strLe, hyx]
        · rcases ih ys with h | h
          · left; simp [strLe, hxy, hyx, h]
          · right; simp [strLe, hyx, hxy, h]

/-- Python string comparison is transitive. -/
lemma strLe_trans (a : Str) : ∀ b c : Str, strLe a b = true → strLe b c = true →
    strLe a c = true := by
  induction a with
  | nil => intro b c _ _; rfl
  | cons x xs ih =>
    intro b c hab hbc
    cases b with
    | nil => simp [strLe] at hab
    | cons y ys =>
      cases c with
      | nil => simp [strLe] at hbc
      | cons z zs =>
        simp only [strLe] at hab hbc ⊢
        by_cases hxy : x < y
        · by_cases hyz : y < z
          · simp [lt_trans hxy hyz]
          · by_cases hzy : z < y
            · simp [hyz, hzy] at hbc
            · have hy : y = z := le_antisymm (not_lt.mp hzy) (not_lt.mp hyz)
              subst hy
              simp [hxy]
        · by_cases hyx : y < x
          · simp [hxy, hyx] at hab
          · have hx : x = y := le_antisymm (not_lt.mp hyx) (not_lt.mp hxy)
            subst hx
            simp [lt_irrefl] at hab
            by_cases hxz : x < z
            · simp [hxz]
            · by_cases hzx : z < x
              · simp [hxz, hzx] at hbc
              · have hx2 : x = z := le_antisymm (not_lt.mp hzx) (not_lt.mp hxz)
                subst hx2
                simp [lt_irrefl] at hbc ⊢
                exact ih ys zs hab hbc

instance : IsTotal Str strLeR := ⟨fun a b => strLe_total a b⟩

instance : IsTrans Str strLeR := ⟨fun a b c => strLe_trans a b c⟩

/-- The `try` body never touches the visit trace. -/
lemma tryProcess_visited (env : Env) (st : St) (d f : Str) :
    (∀ s, tryProcess env st d f = Except.ok s → s.visited = st.visited) ∧
    (∀ s p, tryProcess env st d f = Except.error (s, p) → s.visited = st.visited) := by
  constructor
  · intro s h
    unfold tryProcess at h
    simp only [] at h
    repeat' split at h
    all_goals (simp at h; try subst h; try rfl)
  · intro s p h
    unfold tryProcess at h
    simp only [] at h
    repeat' split at h
    all_goals (simp at h; try (obtain ⟨h1, h2⟩ := h; subst h1; rfl))

/-- Each inner-loop iteration extends the visit trace by exactly its
own file. -/
lemma processFile_visited (env : Env) (st : St) (d f : Str) :
    (processFile env st d f).visited = st.visited ++ [joinPath d f] := by
  unfold processFile
  simp only []
  rcases hr : tryProcess env { st with visited := st.visited ++ [joinPath d f] } d f with e | s
  · rcases e with ⟨s, p⟩
    simp only [hr]
    exact (tryProcess_visited env _ d f).2 s p hr
  · simp only [hr]
    exact (tryProcess_visited env _ d f).1 s hr

/-- The inner loop visits exactly its file list, in order. -/
lemma processList_visited (env : Env) (d : Str) :
    ∀ (fns : List Str) (st : St),
      (processList env d st fns).visited = st.visited ++ fns.map (fun f => joinPath d f) := by
  intro fns
  induction fns with
  | nil => intro st; simp [processList]
  | cons f rest ih =>
    intro st
    simp only [processList, List.foldl_cons] at *
    rw [ih, processFile_visited]
    simp [List.append_assoc]

/-- The walk visits exactly the files of each walked directory, each
directory's files in `sorted` order. -/
lemma runWalk_visited (env : Env) : ∀ (walk : List (Str × List Str)) (st : St),
    (runWalk env st walk).visited =
      st.visited ++ walk.flatMap (fun pr => (sortStrs pr.2).map (fun f => joinPath pr.1 f)) := by
  intro walk
  induction walk with
  | nil => intro st; simp [runWalk]
  | cons pr rest ih =>
    intro st
    simp only [runWalk, List.foldl_cons] at *
    rw [ih, processList_visited]
    simp [List.append_assoc]

/-- C9: the walk visits every file of every directory yielded by
`os.walk`, and within each visited directory the files are processed
in sorted (lexical, code-point) filename order: the visit trace equals
the concatenation, directory by directory, of `sortStrs` of that
directory's files, and `sortStrs` is a sorted permutation of them
(which pins it to Python's `sorted`, since `strLe` is a total,
transitive, antisymmetric order). -/
theorem C9_walk_order_sorted_per_directory (env : Env) (st : St) (walk : List (Str × List Str)) :
    (runWalk env st walk).visited =
      st.visited ++ walk.flatMap (fun pr => (sortStrs pr.2).map (fun f => joinPath pr.1 f)) ∧
    ∀ fns : List Str, (sortStrs fns).Perm fns ∧ List.Sorted strLeR (sortStrs fns) :=
  ⟨runWalk_visited env walk st,
   fun fns => ⟨List.perm_insertionSort strLeR fns, List.sorted_insertionSort strLeR fns⟩⟩

/-- `undigit` inverts `digitChar` on actual digits. -/
lemma undigit_digitChar (d : Nat) (h : d < 10) : undigit (digitChar d) = d := by
  interval_cases d <;> rfl

/-- Reading back a rendered number continues the fold with that
number: the accumulator-passing renderer is parsed correctly whenever
the fuel covers the number's digits. -/
lemma parse_natReprAux : ∀ (fuel n : Nat) (acc : Str), n < 10 ^ fuel →
    parseFoldl 0 (natReprAux fuel n acc) = parseFoldl n acc := by
  intro fuel
  induction fuel with
  | zero =>
    intro n acc h
    have : n = 0 := by simpa using h
    subst this
    rfl
  | succ fuel ih =>
    intro n acc h
    unfold natReprAux
    split
    next hlt =>
      show parseFoldl 0 (digitChar n :: acc) = parseFoldl n acc
      unfold parseFoldl
      simp [undigit_digitChar n hlt]
    next hge =>
      have hdiv : n / 10 < 10 ^ fuel := by
        rw [Nat.div_lt_iff_lt_mul (by norm_num)]
        calc n < 10 ^ (fuel + 1) := h
        _ = 10 ^ fuel * 10 := by ring
      rw [ih (n / 10) (digitChar (n % 10) :: acc) hdiv]
      show parseFoldl (n / 10) (digitChar (n % 10) :: acc) = parseFoldl n acc
      unfold parseFoldl
      simp [undigit_digitChar (n % 10) (Nat.mod_lt n (by norm_num))]
      have : n / 10 * 10 + n % 10 = n := by
        have := Nat.div_add_mod n 10
        omega
      rw [this]

/-- Round trip: parsing the decimal rendering returns the number. -/
lemma parse_natRepr (n : Nat) : parseFoldl 0 (natRepr n) = n := by
  unfold natRepr
  have hn : n < 10 ^ (n + 1) :=
    lt_of_lt_of_le (Nat.lt_pow_self (by norm_num) n)
      (Nat.pow_le_pow_right (by norm_num) (Nat.le_succ n))
  rw [parse_natReprAux (n + 1) n [] hn]
  rfl

/-- The decimal rendering is injective. -/
lemma natRepr_injective (n m : Nat) (h : natRepr n = natRepr m) : n = m := by
  have h1 := parse_natRepr n
  rw [h, parse_natRepr m] at h1
  exact h1.symm

/-- Distinct suffix counters give distinct candidate names. -/
lemma suffixedName_inj (base ext : Str) (i j : Nat)
    (h : suffixedName base ext i = suffixedName base ext j) : i = j := by
  unfold suffixedName at h
  have h1 := List.append_cancel_left h
  have h2 : natRepr i ++ ext = natRepr j ++ ext := by
    injection h1
  exact natRepr_injective i j (List.append_cancel_right h2)

/-- Pigeonhole: among the first `|existing| + 1` candidate suffixes,
some candidate path does not exist. -/
lemma exists_free_suffix (existing : List Str) (d base ext : Str) :
    ∃ j, 1 ≤ j ∧ j < 1 + (existing.length + 1) ∧
      pathExistsIn existing (joinPath d (suffixedName base ext j)) = false := by
  by_contra hc
  push_neg at hc
  have hall : ∀ j ∈ Finset.Icc 1 (existing.length + 1),
      joinPath d (suffixedName base ext j) ∈ existing.toFinset := by
    intro j hj
    rw [Finset.mem_Icc] at hj
    rw [List.mem_toFinset]
    have := hc j hj.1 (by omega)
    rw [Bool.ne_false_iff] at this
    exact (pathExistsIn_iff existing _).mp this
  have hinj : Set.InjOn (fun j => joinPath d (suffixedName base ext j))
      (Finset.Icc 1 (existing.length + 1) : Finset Nat) := by
    intro a _ b _ hab
    have : suffixedName base ext a = suffixedName base ext b := by
      have := List.append_cancel_left (hab : (joinPath d _ : Str) = joinPath d _)
      injection this
    exact suffixedName_inj base ext a b this
  have hcard := Finset.card_le_card_of_injOn _ hall hinj
  rw [Nat.card_Icc] at hcard
  have := List.toFinset_card_le existing
  omega

/-- The `unique_path` loop returns a non-existing path whenever a free
candidate lies within its fuel window. -/
lemma uniqueFrom_not_exists (existing : List Str) (d base ext : Str) :
    ∀ (fuel i : Nat),
      (∃ j, i ≤ j ∧ j < i + fuel ∧
        pathExistsIn existing (joinPath d (suffixedName base ext j)) = false) →
      pathExistsIn existing (uniqueFrom existing d base ext i fuel) = false := by
  intro fuel
  induction fuel with
  | zero =>
    intro i ⟨j, h1, h2, _⟩
    omega
  | succ fuel ih =>
    intro i ⟨j, h1, h2, h3⟩
    unfold uniqueFrom
    simp only []
    split
    next hex =>
      apply ih (i + 1)
      refine ⟨j, ?_, by omega, h3⟩
      rcases Nat.eq_or_lt_of_le h1 with heq | hlt
      · subst heq
        rw [hex] at h3
        simp at h3
      · omega
    next hex =>
      simpa using hex

/-- The collision-avoidance guarantee of `unique_path` on the primary
extraction paths: the returned path never exists, so `open(out_path,
"wb")` never overwrites an existing file (contrast with the `unrar
-o+` fallback, which bypasses this mechanism). -/
theorem unique_path_never_existing (existing : List Str) (d f : Str) :
    pathExistsIn existing (unique_path existing d f) = false := by
  unfold unique_path
  simp only []
  split
  next =>
    exact uniqueFrom_not_exists existing d (splitext f).1 (splitext f).2
      (existing.length + 1) 1
      (by
        obtain ⟨j, h1, h2, h3⟩ := exists_free_suffix existing d (splitext f).1 (splitext f).2
        exact ⟨j, h1, h2, h3⟩)
  next hex =>
    simpa using hex
